import Mathlib

/-! # Verification of the vixa CDN core

Shallow embedding of the domain/category registry (`internal/config/config.go`),
the blob store (`storage.go`), and the HTTP read path (`internal/cdn/server.go`)
of the vixa repository, together with proofs and refutations of the frozen
specification claims.

Go `map[string]string` values are modelled as association lists with
set-or-replace insertion, matching Go map assignment; Go's unspecified map
iteration order is modelled as insertion order (claims proved here do not
depend on a particular order beyond determinism of the scan).  Fallible Go
functions returning `error` are modelled with `Except`.
-/

namespace Vixa

/-- Lookup in an association list, modelling Go map indexing `m[k]`. -/
def lookupA (m : List (String × String)) (k : String) : Option String :=
  match m with
  | [] => none
  | (k1, v) :: rest => if k1 = k then some v else lookupA rest k

/-- Set-or-replace insertion, modelling Go map assignment `m[k] = v`. -/
def insertA (m : List (String × String)) (k v : String) : List (String × String) :=
  match m with
  | [] => [(k, v)]
  | (k1, v1) :: rest => if k1 = k then (k1, v) :: rest else (k1, v1) :: insertA rest k v

/-- Key removal, modelling Go `delete(m, k)`. -/
def eraseA (m : List (String × String)) (k : String) : List (String × String) :=
  match m with
  | [] => []
  | (k1, v1) :: rest => if k1 = k then rest else (k1, v1) :: eraseA rest k

/-- The key list of an association-list map. -/
def keysOf (m : List (String × String)) : List String := m.map Prod.fst

/-- Model of `strings.ReplaceAll(s, " ", "-")` (the pattern and replacement are
single characters, so the replacement is a character map). -/
def normalizeFolderName (s : String) : String :=
  ⟨s.data.map (fun c => if c = ' ' then '-' else c)⟩

/-- Boolean prefix test on character lists. -/
def isPre (p s : List Char) : Bool :=
  match p, s with
  | [], _ => true
  | _ :: _, [] => false
  | a :: ps, b :: ss => a = b && isPre ps ss

/-- Model of Go `strings.TrimPrefix(s, p)`. -/
def trimPreS (p s : String) : String :=
  if isPre p.data s.data then ⟨s.data.drop p.data.length⟩ else s

/-- Model of Go `strings.TrimSuffix(s, suf)`. -/
def trimSufS (suf s : String) : String :=
  if isPre suf.data.reverse s.data.reverse then
    ⟨s.data.take (s.data.length - suf.data.length)⟩
  else s

/-- Function `stripProtocol` from `config.go`: drop `https://`, then `http://`, then
`ftp://` prefixes, then a trailing slash. -/
def stripProtocol (fqdn : String) : String :=
  trimSufS "/" (trimPreS "ftp://" (trimPreS "http://" (trimPreS "https://" fqdn)))

/-- A `Domain` record of the persisted domains catalog (`config.go`). -/
structure Domain where
  FolderName : String
  DisplayName : String
  DomainFQDN : String
deriving Repr, DecidableEq

/-- A `Category` record of the persisted categories catalog (`config.go`). -/
structure Category where
  FolderName : String
  DisplayName : String
deriving Repr, DecidableEq

/-- The in-memory state of `ConfigManager` (`config.go`): five string maps.
The `sync.RWMutex` makes every operation atomic, so the sequential model
captures all linearizable behaviours. -/
structure ConfigManager where
  domains : List (String × String)
  domainDisplayNames : List (String × String)
  domainFQDNs : List (String × String)
  categories : List (String × String)
  categoryDisplayNames : List (String × String)
deriving Repr, DecidableEq

/-- Constructor `NewConfigManager`: all five maps empty. -/
def NewConfigManager : ConfigManager := ⟨[], [], [], [], []⟩

/-- Structured rendering of the `fmt.Errorf` failures of the registry. -/
inductive RegError where
  | alreadyExists (folderName : String)
  | notFound (folderName : String)
deriving Repr, DecidableEq

instance exceptDecEq {ε α : Type} [DecidableEq ε] [DecidableEq α] :
    DecidableEq (Except ε α) := fun a b =>
  match a, b with
  | .ok x, .ok y =>
    if h : x = y then isTrue (by rw [h]) else isFalse (fun e => by cases e; exact h rfl)
  | .error x, .error y =>
    if h : x = y then isTrue (by rw [h]) else isFalse (fun e => by cases e; exact h rfl)
  | .ok _, .error _ => isFalse (fun e => by cases e)
  | .error _, .ok _ => isFalse (fun e => by cases e)

/-- Method `AddDomain` from `config.go`: normalize the folder name, strip the
protocol from the FQDN, fail if the folder name is registered, otherwise
extend all three domain maps. -/
def AddDomain (cm : ConfigManager) (folderName displayName domainFQDN : String) :
    Except RegError ConfigManager :=
  let n := normalizeFolderName folderName
  let cleanFQDN := stripProtocol domainFQDN
  match lookupA cm.domains n with
  | some _ => .error (.alreadyExists n)
  | none => .ok { cm with
      domains := insertA cm.domains n "exists"
      domainDisplayNames := insertA cm.domainDisplayNames n displayName
      domainFQDNs := insertA cm.domainFQDNs n cleanFQDN }

/-- Method `RemoveDomain` from `config.go`. -/
def RemoveDomain (cm : ConfigManager) (folderName : String) :
    Except RegError ConfigManager :=
  match lookupA cm.domains folderName with
  | none => .error (.notFound folderName)
  | some _ => .ok { cm with
      domains := eraseA cm.domains folderName
      domainDisplayNames := eraseA cm.domainDisplayNames folderName
      domainFQDNs := eraseA cm.domainFQDNs folderName }

/-- Method `AddCategory` from `config.go`. -/
def AddCategory (cm : ConfigManager) (folderName displayName : String) :
    Except RegError ConfigManager :=
  let n := normalizeFolderName folderName
  match lookupA cm.categories n with
  | some _ => .error (.alreadyExists n)
  | none => .ok { cm with
      categories := insertA cm.categories n "exists"
      categoryDisplayNames := insertA cm.categoryDisplayNames n displayName }

/-- Method `RemoveCategory` from `config.go`. -/
def RemoveCategory (cm : ConfigManager) (folderName : String) :
    Except RegError ConfigManager :=
  match lookupA cm.categories folderName with
  | none => .error (.notFound folderName)
  | some _ => .ok { cm with
      categories := eraseA cm.categories folderName
      categoryDisplayNames := eraseA cm.categoryDisplayNames folderName }

/-- One step of the loop body of `LoadDomains`: insert one parsed record
into the three domain maps. -/
def loadDomainStep (acc : List (String × String) × List (String × String) × List (String × String))
    (d : Domain) :
    List (String × String) × List (String × String) × List (String × String) :=
  let n := normalizeFolderName d.FolderName
  (insertA acc.1 n "exists", insertA acc.2.1 n d.DisplayName, insertA acc.2.2 n d.DomainFQDN)

/-- Method `LoadDomains` from `config.go`, modelled after the file has been read and
parsed into records: the three domain maps are rebuilt wholesale from the
record sequence (category maps untouched). -/
def LoadDomains (cm : ConfigManager) (ds : List Domain) : ConfigManager :=
  let maps := ds.foldl loadDomainStep ([], [], [])
  { cm with domains := maps.1, domainDisplayNames := maps.2.1, domainFQDNs := maps.2.2 }

/-- One step of the loop body of `LoadCategories`. -/
def loadCategoryStep (acc : List (String × String) × List (String × String))
    (c : Category) : List (String × String) × List (String × String) :=
  let n := normalizeFolderName c.FolderName
  (insertA acc.1 n "exists", insertA acc.2 n c.DisplayName)

/-- Method `LoadCategories` from `config.go`, modelled post-parse. -/
def LoadCategories (cm : ConfigManager) (cs : List Category) : ConfigManager :=
  let maps := cs.foldl loadCategoryStep ([], [])
  { cm with categories := maps.1, categoryDisplayNames := maps.2 }

/-- Method `DomainExists` from `config.go`. -/
def DomainExists (cm : ConfigManager) (folderName : String) : Bool :=
  (lookupA cm.domains folderName).isSome

/-- The scan of `GetDomainByFQDN`: first entry whose stored FQDN equals the
query. -/
def findByFQDN (m : List (String × String)) (fqdn : String) : Option String :=
  match m with
  | [] => none
  | (folder, f) :: rest => if f = fqdn then some folder else findByFQDN rest fqdn

/-- Method `GetDomainByFQDN` from `config.go`: linear scan over `domainFQDNs`
comparing stored values exactly; on a hit, the display name is read with
Go's zero-value-on-missing map indexing. -/
def GetDomainByFQDN (cm : ConfigManager) (fqdn : String) : Option (String × String) :=
  match findByFQDN cm.domainFQDNs fqdn with
  | none => none
  | some folder => some (folder, (lookupA cm.domainDisplayNames folder).getD "")

/-- The registry mutations a caller can issue (the administrative interface
of §4.1 of the spec). -/
inductive RegOp where
  | addDom (folderName displayName domainFQDN : String)
  | removeDom (folderName : String)
  | loadDoms (ds : List Domain)
  | addCat (folderName displayName : String)
  | removeCat (folderName : String)
  | loadCats (cs : List Category)
deriving Repr, DecidableEq

/-- The state after one registry call; a failed call leaves the state as it
was (the Go methods return before touching any map on the error paths). -/
def applyOp (cm : ConfigManager) : RegOp → ConfigManager
  | .addDom f d q =>
    match AddDomain cm f d q with
    | .ok cm1 => cm1
    | .error _ => cm
  | .removeDom f =>
    match RemoveDomain cm f with
    | .ok cm1 => cm1
    | .error _ => cm
  | .loadDoms ds => LoadDomains cm ds
  | .addCat f d =>
    match AddCategory cm f d with
    | .ok cm1 => cm1
    | .error _ => cm
  | .removeCat f =>
    match RemoveCategory cm f with
    | .ok cm1 => cm1
    | .error _ => cm
  | .loadCats cs => LoadCategories cm cs

/-- The registry state reached by a sequence of operations from the freshly
constructed manager. -/
def runOps (ops : List RegOp) : ConfigManager := ops.foldl applyOp NewConfigManager

/-! ## Blob store (`storage.go`)

The filesystem is modelled as an association list from absolute paths to
byte contents, with a path represented as its list of segments;
`filepath.Join(basePath, domainFolder, category, filename)` is modelled as
the four-segment path (the claims proved on this model do not involve
`Join`'s `..`-cleaning; the read path's lack of filename validation is
settled on the handler's parsing, below, where the raw strings are visible).
Bytes are naturals below 256. -/

/-- Filesystem contents: path segments to file bytes. -/
abbrev FS := List (List String × List Nat)

/-- Lookup of a path, modelling `os.ReadFile`. -/
def lookupFS (fs : FS) (p : List String) : Option (List Nat) :=
  match fs with
  | [] => none
  | (q, d) :: rest => if q = p then some d else lookupFS rest p

/-- Write-or-truncate of a path, modelling `os.WriteFile`. -/
def insertFS (fs : FS) (p : List String) (d : List Nat) : FS :=
  match fs with
  | [] => [(p, d)]
  | (q, d1) :: rest => if q = p then (q, d) :: rest else (q, d1) :: insertFS rest p d

/-- The `Storage` state: its base path and the filesystem tree under it. -/
structure Storage where
  basePath : String
  fs : FS

/-- Model of `filepath.Ext`: the suffix of the final path element starting
at its last dot, empty when the final element has no dot.  The scan from
the end stops at a path separator, as in Go. -/
def extScan (revChars : List Char) (acc : List Char) : String :=
  match revChars with
  | [] => ""
  | c :: rest =>
    if c = '/' then ""
    else if c = '.' then ⟨'.' :: acc⟩
    else extScan rest (c :: acc)

/-- Model of Go `filepath.Ext(path)`. -/
def fileExt (s : String) : String := extScan s.data.reverse []

/-- Method `StoreFile` from `storage.go`.  Here `uuid.New().String()` is nondeterministic,
so the generated identifier is passed in as `id`; the filename is the
identifier with the caller's extension appended unmodified, and the
`contentType` argument is accepted but unused, as in the source. -/
def StoreFile (st : Storage) (domainFolder category : String) (data : List Nat)
    (contentType ext : String) (id : String) : String × Nat × Storage :=
  let filename := id ++ ext
  let st1 : Storage :=
    { st with fs := insertFS st.fs [st.basePath, domainFolder, category, filename] data }
  (filename, data.length, st1)

/-- Method `GetFile` from `storage.go`.  A missing path is the non-error empty
result (`none`); on a hit the content type is the extension-based MIME
lookup, falling back to content sniffing when that yields the empty string.
The two library lookups `mime.TypeByExtension` and `http.DetectContentType`
are passed in as function arguments `mimeF` and `sniff`. -/
def GetFile (st : Storage) (mimeF : String → String) (sniff : List Nat → String)
    (domainFolder category filename : String) : Option (List Nat × String) :=
  match lookupFS st.fs [st.basePath, domainFolder, category, filename] with
  | none => none
  | some data =>
    let ct0 := mimeF (fileExt filename)
    let ct := if ct0 = "" then sniff data else ct0
    some (data, ct)

/-- The names of the regular-file entries directly inside a directory:
stored paths that extend the directory path by exactly one segment.  Stored
paths that extend it by more correspond to subdirectory entries, which
`ListFiles` skips via `entry.IsDir()`. -/
def fileNamesIn (fs : FS) (dir : List String) : List String :=
  (fs.filter (fun p => p.1.length = dir.length + 1 && dir.isPrefixOf p.1)).map
    (fun p => p.1.getD dir.length "")

/-- Method `ListFiles` from `storage.go`: the non-directory entry names of
`{basePath}/{domainFolder}/{category}`, sorted ascending (`sort.Strings`,
modelled by insertion sort); a missing directory contributes no entries and
yields the empty list, not an error. -/
def ListFiles (st : Storage) (domainFolder category : String) : List String :=
  List.insertionSort (fun a b => a ≤ b)
    (fileNamesIn st.fs [st.basePath, domainFolder, category])

/-! ## SHA-256 and `GenerateETag` (`storage.go`) -/

/-- Truncation to 32 bits. -/
def mod32 (x : Nat) : Nat := x % 4294967296

/-- The 32-bit right rotation (arguments below `2 ^ 32`). -/
def rotr32 (n x : Nat) : Nat := x / 2 ^ n + x % 2 ^ n * 2 ^ (32 - n)

/-- Logical right shift. -/
def shr32 (n x : Nat) : Nat := x / 2 ^ n

/-- The 32-bit complement. -/
def not32 (x : Nat) : Nat := 4294967295 - x

/-- SHA-256 `Ch`. -/
def sha2Ch (x y z : Nat) : Nat := (x &&& y) ^^^ (not32 x &&& z)

/-- SHA-256 `Maj`. -/
def sha2Maj (x y z : Nat) : Nat := (x &&& y) ^^^ (x &&& z) ^^^ (y &&& z)

/-- SHA-256 Σ₀. -/
def bigSigma0 (x : Nat) : Nat := rotr32 2 x ^^^ rotr32 13 x ^^^ rotr32 22 x

/-- SHA-256 Σ₁. -/
def bigSigma1 (x : Nat) : Nat := rotr32 6 x ^^^ rotr32 11 x ^^^ rotr32 25 x

/-- SHA-256 σ₀. -/
def smallSigma0 (x : Nat) : Nat := rotr32 7 x ^^^ rotr32 18 x ^^^ shr32 3 x

/-- SHA-256 σ₁. -/
def smallSigma1 (x : Nat) : Nat := rotr32 17 x ^^^ rotr32 19 x ^^^ shr32 10 x

/-- The SHA-256 round constants. -/
def sha256KList : List Nat :=
  [1116352408, 1899447441, 3049323471, 3921009573, 961987163, 1508970993,
   2453635748, 2870763221, 3624381080, 310598401, 607225278, 1426881987,
   1925078388, 2162078206, 2614888103, 3248222580, 3835390401, 4022224774,
   264347078, 604807628, 770255983, 1249150122, 1555081692, 1996064986,
   2554220882, 2821834349, 2952996808, 3210313671, 3336571891, 3584528711,
   113926993, 338241895, 666307205, 773529912, 1294757372, 1396182291,
   1695183700, 1986661051, 2177026350, 2456956037, 2730485921, 2820302411,
   3259730800, 3345764771, 3516065817, 3600352804, 4094571909, 275423344,
   430227734, 506948616, 659060556, 883997877, 958139571, 1322822218,
   1537002063, 1747873779, 1955562222, 2024104815, 2227730452, 2361852424,
   2428436474, 2756734187, 3204031479, 3329325298]

/-- The SHA-256 initial hash value. -/
def sha256H0 : List Nat :=
  [1779033703, 3144134277, 1013904242, 2773480762,
   1359893119, 2600822924, 528734635, 1541459225]

/-- Big-endian byte rendering of `x` on `n` bytes. -/
def beBytes (n : Nat) (x : Nat) : List Nat :=
  match n with
  | 0 => []
  | k + 1 => beBytes k (x / 256) ++ [x % 256]

/-- SHA-256 padding: `0x80`, zeros to 56 mod 64, then the bit length on
eight big-endian bytes. -/
def padMessage (msg : List Nat) : List Nat :=
  let l := msg.length
  let z := (119 - l % 64) % 64
  msg ++ 128 :: List.replicate z 0 ++ beBytes 8 (8 * l)

/-- Big-endian 32-bit words of a byte sequence. -/
def bytesToWords : List Nat → List Nat
  | b0 :: b1 :: b2 :: b3 :: rest =>
    (((b0 * 256 + b1) * 256 + b2) * 256 + b3) :: bytesToWords rest
  | _ => []

/-- Extend the 16-word message schedule by `fuel` further words. -/
def extendSchedule (w : List Nat) : Nat → List Nat
  | 0 => w
  | k + 1 =>
    let i := w.length
    let nw := mod32 (smallSigma1 (w.getD (i - 2) 0) + w.getD (i - 7) 0 +
      smallSigma0 (w.getD (i - 15) 0) + w.getD (i - 16) 0)
    extendSchedule (w ++ [nw]) k

/-- One SHA-256 compression round; the working state is the eight words
`[a, b, c, d, e, f, g, h]`, and `wk` is the pair of schedule word and round
constant. -/
def sha256Round (st : List Nat) (wk : Nat × Nat) : List Nat :=
  match st with
  | [a, b, c, d, e, f, g, h] =>
    let t1 := mod32 (h + bigSigma1 e + sha2Ch e f g + wk.2 + wk.1)
    let t2 := mod32 (bigSigma0 a + sha2Maj a b c)
    [mod32 (t1 + t2), a, b, c, mod32 (d + t1), e, f, g]
  | st1 => st1

/-- Compress one 64-byte block into the hash state. -/
def compressBlock (h : List Nat) (block : List Nat) : List Nat :=
  let w := extendSchedule (bytesToWords block) 48
  let st := (w.zip sha256KList).foldl sha256Round h
  (h.zip st).map (fun p => mod32 (p.1 + p.2))

/-- Fold the compression function over the 64-byte blocks of the padded
message; `fuel` bounds the number of blocks and keeps the recursion
structural (the padded message length divided by 64 suffices). -/
def sha256Blocks (fuel : Nat) (h : List Nat) (msg : List Nat) : List Nat :=
  match fuel with
  | 0 => h
  | k + 1 =>
    if msg = [] then h
    else sha256Blocks k (compressBlock h (msg.take 64)) (msg.drop 64)

/-- SHA-256 of a byte sequence, as its 32-byte big-endian digest
(`crypto/sha256.Sum256`). -/
def sha256 (msg : List Nat) : List Nat :=
  let p := padMessage msg
  ((sha256Blocks (p.length / 64) sha256H0 p).map (beBytes 4)).flatten

/-- Lowercase hex digit. -/
def hexDigit (n : Nat) : Char :=
  if n < 10 then Char.ofNat (48 + n) else Char.ofNat (87 + n)

/-- Lowercase hex rendering of one byte. -/
def hexByte (b : Nat) : List Char := [hexDigit (b / 16), hexDigit (b % 16)]

/-- Model of Go `hex.EncodeToString`. -/
def hexEncode (bs : List Nat) : String := ⟨(bs.map hexByte).flatten⟩

/-- Function `GenerateETag` from `storage.go`: the first eight digest bytes of the
SHA-256 of the content, hex-encoded and wrapped in double quotes. -/
def GenerateETag (data : List Nat) : String :=
  ⟨Char.ofNat 34 :: (hexEncode ((sha256 data).take 8)).data ++ [Char.ofNat 34]⟩

/-! ## Request handler (`internal/cdn/server.go`) -/

/-- The request data the handler reads.  Absent headers are the empty
string, as returned by Go's `Header.Get`. -/
structure HttpRequest where
  method : String
  host : String
  urlPath : String
  ifNoneMatch : String
  origin : String
deriving Repr, DecidableEq

/-- The observable response: status code, the headers the handler sets
(`none` when a header is not set), and the body bytes written. -/
structure HttpResponse where
  status : Nat
  cacheControl : Option String
  contentType : Option String
  etag : Option String
  xcto : Option String
  corsAllowOrigin : Option String
  corsAllowMethods : Option String
  corsMaxAge : Option String
  body : List Nat
deriving Repr, DecidableEq

/-- Byte rendering of a Go string literal body. -/
def strBytes (s : String) : List Nat := s.data.map Char.toNat

/-- Response of `serveNotFound`: 404 with a short negative-cache header and the
`http.NotFound` plain-text body. -/
def notFoundResponse : HttpResponse :=
  { status := 404
    cacheControl := some "public, max-age=60"
    contentType := some "text/plain; charset=utf-8"
    etag := none
    xcto := some "nosniff"
    corsAllowOrigin := none
    corsAllowMethods := none
    corsMaxAge := none
    body := strBytes "404 page not found\n" }

/-- The `OPTIONS` short-circuit: permissive CORS headers, implicit 200, no
body. -/
def optionsResponse : HttpResponse :=
  { status := 200
    cacheControl := none
    contentType := none
    etag := none
    xcto := none
    corsAllowOrigin := some "*"
    corsAllowMethods := some "GET, HEAD, OPTIONS"
    corsMaxAge := some "86400"
    body := [] }

/-- The `StatusNotModified` response: bare 304, no headers set by the
handler, no body. -/
def notModifiedResponse : HttpResponse :=
  { status := 304
    cacheControl := none
    contentType := none
    etag := none
    xcto := none
    corsAllowOrigin := none
    corsAllowMethods := none
    corsMaxAge := none
    body := [] }

/-- The cache header of a served file. -/
def servedCacheControl : String := "public, max-age=31536000, immutable"

/-- The `Served` terminal state: caching and type headers, CORS echo of a
non-empty `Origin`, and the body for every method but `HEAD`. -/
def servedResponse (req : HttpRequest) (data : List Nat) (ct etag : String) : HttpResponse :=
  { status := 200
    cacheControl := some servedCacheControl
    contentType := some ct
    etag := some etag
    xcto := some "nosniff"
    corsAllowOrigin := if req.origin ≠ "" then some req.origin else none
    corsAllowMethods := none
    corsMaxAge := none
    body := if req.method ≠ "HEAD" then data else [] }

/-- The host-header trimming of the handler: drop a `http://` prefix, then
a `https://` prefix (in that order, as in the source). -/
def hostTrim (h : String) : String := trimPreS "https://" (trimPreS "http://" h)

/-- Model of Go `strings.SplitN(s, "/", 2)` on characters: the part before the first
slash, and `some` remainder after it when a slash occurs. -/
def splitN2core : List Char → List Char × Option (List Char)
  | [] => ([], none)
  | c :: rest =>
    if c = '/' then ([], some rest)
    else
      let r := splitN2core rest
      (c :: r.1, r.2)

/-- Lines 25–44 of `server.go`: resolve the trimmed host through the
registry, trim one leading slash from the URL path, split it into
`category/filename` around the first slash; `none` is the fall-through to
`serveNotFound` (unknown host, or fewer than two path segments). -/
def handlerParse (cm : ConfigManager) (req : HttpRequest) :
    Option (String × String × String) :=
  match GetDomainByFQDN cm (hostTrim req.host) with
  | none => none
  | some (domainFolder, _) =>
    let path := trimPreS "/" req.urlPath
    match splitN2core path.data with
    | (_, none) => none
    | (cat, some rest) => some (domainFolder, ⟨cat⟩, ⟨rest⟩)

/-- The request handler (`Handler` in `server.go`): host resolution and
path split, the `OPTIONS` short-circuit, the method gate, the blob-store
read, and the ETag conditional. -/
def handler (cm : ConfigManager) (st : Storage) (mimeF : String → String)
    (sniff : List Nat → String) (req : HttpRequest) : HttpResponse :=
  match handlerParse cm req with
  | none => notFoundResponse
  | some (domainFolder, category, filename) =>
    if req.method = "OPTIONS" then optionsResponse
    else if req.method ≠ "GET" ∧ req.method ≠ "HEAD" then notFoundResponse
    else
      match GetFile st mimeF sniff domainFolder category filename with
      | none => notFoundResponse
      | some (data, ct) =>
        let etag := GenerateETag data
        if req.ifNoneMatch = etag then notModifiedResponse
        else servedResponse req data ct etag

/-! ## Association-map lemmas -/

theorem keysOf_nil : keysOf [] = [] := rfl

theorem keysOf_cons (p : String × String) (rest : List (String × String)) :
    keysOf (p :: rest) = p.1 :: keysOf rest := rfl

theorem lookupA_isSome_iff (m : List (String × String)) (k : String) :
    (lookupA m k).isSome ↔ k ∈ keysOf m := by
  induction m with
  | nil => simp [lookupA, keysOf_nil]
  | cons p rest ih =>
    obtain ⟨k1, v⟩ := p
    by_cases h : k1 = k
    · subst h; simp [lookupA, keysOf_cons]
    · have hk : ¬ k = k1 := fun e => h e.symm
      simp [lookupA, keysOf_cons, h, hk, ih]

theorem keysOf_insertA (m : List (String × String)) (k v : String) :
    keysOf (insertA m k v) =
      if k ∈ keysOf m then keysOf m else keysOf m ++ [k] := by
  induction m with
  | nil => simp [insertA, keysOf]
  | cons p rest ih =>
    obtain ⟨k1, v1⟩ := p
    by_cases h : k1 = k
    · subst h; simp [insertA, keysOf_cons]
    · have hk : ¬ k = k1 := fun e => h e.symm
      by_cases hm : k ∈ keysOf rest <;>
        simp [insertA, h, keysOf_cons, ih, hm, hk]

theorem keysOf_eraseA (m : List (String × String)) (k : String) :
    keysOf (eraseA m k) = (keysOf m).erase k := by
  induction m with
  | nil => simp [eraseA, keysOf]
  | cons p rest ih =>
    obtain ⟨k1, v1⟩ := p
    by_cases h : k1 = k <;>
      simp [eraseA, keysOf_cons, h, ih, List.erase_cons]

theorem keysOf_insertA_congr {m1 m2 : List (String × String)}
    (h : keysOf m1 = keysOf m2) (k v1 v2 : String) :
    keysOf (insertA m1 k v1) = keysOf (insertA m2 k v2) := by
  rw [keysOf_insertA, keysOf_insertA, h]

theorem nodup_insertA {m : List (String × String)} {k v : String}
    (h : (keysOf m).Nodup) : (keysOf (insertA m k v)).Nodup := by
  rw [keysOf_insertA]
  split
  · exact h
  · next hk =>
    exact List.nodup_append.mpr
      ⟨h, List.nodup_singleton k, by simpa [List.disjoint_singleton] using hk⟩

theorem nodup_eraseA {m : List (String × String)} {k : String}
    (h : (keysOf m).Nodup) : (keysOf (eraseA m k)).Nodup := by
  rw [keysOf_eraseA]
  exact h.erase k

theorem normalize_no_space (s : String) : ' ' ∉ (normalizeFolderName s).data := by
  intro h
  simp only [normalizeFolderName] at h
  rcases List.mem_map.mp h with ⟨c, _, hc⟩
  by_cases h1 : c = ' ' <;> simp [h1] at hc

theorem nospace_insertA {m : List (String × String)} {k v : String}
    (hs : ∀ x ∈ keysOf m, ' ' ∉ x.data) (hk : ' ' ∉ k.data) :
    ∀ x ∈ keysOf (insertA m k v), ' ' ∉ x.data := by
  rw [keysOf_insertA]
  split
  · exact hs
  · intro x hx
    rcases List.mem_append.mp hx with h | h
    · exact hs x h
    · simp only [List.mem_singleton] at h
      subst h
      exact hk

theorem nospace_eraseA {m : List (String × String)} {k : String}
    (hs : ∀ x ∈ keysOf m, ' ' ∉ x.data) :
    ∀ x ∈ keysOf (eraseA m k), ' ' ∉ x.data := by
  rw [keysOf_eraseA]
  intro x hx
  exact hs x (List.erase_subset _ _ hx)

/-! ## The registry invariant -/

/-- The consistency invariant of the five registry maps: the three domain
maps share one key list, the two category maps share one key list, the key
lists have no duplicates, and no key contains a space character. -/
def RegInv (cm : ConfigManager) : Prop :=
  keysOf cm.domains = keysOf cm.domainDisplayNames ∧
  keysOf cm.domains = keysOf cm.domainFQDNs ∧
  keysOf cm.categories = keysOf cm.categoryDisplayNames ∧
  (keysOf cm.domains).Nodup ∧
  (keysOf cm.categories).Nodup ∧
  (∀ k ∈ keysOf cm.domains, ' ' ∉ k.data) ∧
  (∀ k ∈ keysOf cm.categories, ' ' ∉ k.data)

theorem regInv_new : RegInv NewConfigManager := by
  refine ⟨rfl, rfl, rfl, ?_, ?_, ?_, ?_⟩ <;> simp [NewConfigManager, keysOf]

theorem loadDomains_fold_inv (ds : List Domain)
    (acc : List (String × String) × List (String × String) × List (String × String))
    (h1 : keysOf acc.1 = keysOf acc.2.1) (h2 : keysOf acc.1 = keysOf acc.2.2)
    (hn : (keysOf acc.1).Nodup) (hs : ∀ k ∈ keysOf acc.1, ' ' ∉ k.data) :
    keysOf (ds.foldl loadDomainStep acc).1 = keysOf (ds.foldl loadDomainStep acc).2.1 ∧
    keysOf (ds.foldl loadDomainStep acc).1 = keysOf (ds.foldl loadDomainStep acc).2.2 ∧
    (keysOf (ds.foldl loadDomainStep acc).1).Nodup ∧
    (∀ k ∈ keysOf (ds.foldl loadDomainStep acc).1, ' ' ∉ k.data) := by
  induction ds generalizing acc with
  | nil => exact ⟨h1, h2, hn, hs⟩
  | cons d rest ih =>
    refine ih (loadDomainStep acc d) ?_ ?_ ?_ ?_
    · exact keysOf_insertA_congr h1 _ _ _
    · exact keysOf_insertA_congr h2 _ _ _
    · exact nodup_insertA hn
    · exact nospace_insertA hs (normalize_no_space _)

theorem loadCategories_fold_inv (cs : List Category)
    (acc : List (String × String) × List (String × String))
    (h1 : keysOf acc.1 = keysOf acc.2)
    (hn : (keysOf acc.1).Nodup) (hs : ∀ k ∈ keysOf acc.1, ' ' ∉ k.data) :
    keysOf (cs.foldl loadCategoryStep acc).1 = keysOf (cs.foldl loadCategoryStep acc).2 ∧
    (keysOf (cs.foldl loadCategoryStep acc).1).Nodup ∧
    (∀ k ∈ keysOf (cs.foldl loadCategoryStep acc).1, ' ' ∉ k.data) := by
  induction cs generalizing acc with
  | nil => exact ⟨h1, hn, hs⟩
  | cons c rest ih =>
    refine ih (loadCategoryStep acc c) ?_ ?_ ?_
    · exact keysOf_insertA_congr h1 _ _ _
    · exact nodup_insertA hn
    · exact nospace_insertA hs (normalize_no_space _)

theorem regInv_applyOp {cm : ConfigManager} (h : RegInv cm) (op : RegOp) :
    RegInv (applyOp cm op) := by
  obtain ⟨h1, h2, h3, h4, h5, h6, h7⟩ := h
  cases op with
  | addDom f d q =>
    simp only [applyOp, AddDomain]
    cases hl : lookupA cm.domains (normalizeFolderName f) with
    | some v => exact ⟨h1, h2, h3, h4, h5, h6, h7⟩
    | none =>
      refine ⟨keysOf_insertA_congr h1 _ _ _, keysOf_insertA_congr h2 _ _ _, h3,
        nodup_insertA h4, h5, nospace_insertA h6 (normalize_no_space _), h7⟩
  | removeDom f =>
    simp only [applyOp, RemoveDomain]
    cases hl : lookupA cm.domains f with
    | none => exact ⟨h1, h2, h3, h4, h5, h6, h7⟩
    | some v =>
      refine ⟨?_, ?_, h3, nodup_eraseA h4, h5, nospace_eraseA h6, h7⟩
      · rw [keysOf_eraseA, keysOf_eraseA, h1]
      · rw [keysOf_eraseA, keysOf_eraseA, h2]
  | loadDoms ds =>
    simp only [applyOp, LoadDomains]
    obtain ⟨g1, g2, g3, g4⟩ :=
      loadDomains_fold_inv ds ([], [], []) rfl rfl (by simp [keysOf]) (by simp [keysOf])
    exact ⟨g1, g2, h3, g3, h5, g4, h7⟩
  | addCat f d =>
    simp only [applyOp, AddCategory]
    cases hl : lookupA cm.categories (normalizeFolderName f) with
    | some v => exact ⟨h1, h2, h3, h4, h5, h6, h7⟩
    | none =>
      refine ⟨h1, h2, keysOf_insertA_congr h3 _ _ _, h4,
        nodup_insertA h5, h6, nospace_insertA h7 (normalize_no_space _)⟩
  | removeCat f =>
    simp only [applyOp, RemoveCategory]
    cases hl : lookupA cm.categories f with
    | none => exact ⟨h1, h2, h3, h4, h5, h6, h7⟩
    | some v =>
      refine ⟨h1, h2, ?_, h4, nodup_eraseA h5, h6, nospace_eraseA h7⟩
      rw [keysOf_eraseA, keysOf_eraseA, h3]
  | loadCats cs =>
    simp only [applyOp, LoadCategories]
    obtain ⟨g1, g2, g3⟩ :=
      loadCategories_fold_inv cs ([], []) rfl (by simp [keysOf]) (by simp [keysOf])
    exact ⟨h1, h2, g1, h4, g2, h6, g3⟩

theorem regInv_foldl (ops : List RegOp) (cm : ConfigManager) (h : RegInv cm) :
    RegInv (ops.foldl applyOp cm) := by
  induction ops generalizing cm with
  | nil => exact h
  | cons op rest ih => exact ih _ (regInv_applyOp h op)

theorem regInv_runOps (ops : List RegOp) : RegInv (runOps ops) :=
  regInv_foldl ops NewConfigManager regInv_new

/-! ## Reverse-lookup lemmas -/

theorem findByFQDN_mem {m : List (String × String)} {fqdn f : String}
    (h : findByFQDN m fqdn = some f) : (f, fqdn) ∈ m := by
  induction m with
  | nil => simp [findByFQDN] at h
  | cons p rest ih =>
    obtain ⟨k1, v1⟩ := p
    by_cases hv : v1 = fqdn
    · subst hv
      simp [findByFQDN] at h
      subst h
      exact List.mem_cons_self _ _
    · rw [findByFQDN, if_neg hv] at h
      exact List.mem_cons_of_mem _ (ih h)

theorem findByFQDN_mem_keys {m : List (String × String)} {fqdn f : String}
    (h : findByFQDN m fqdn = some f) : f ∈ keysOf m := by
  have := findByFQDN_mem h
  exact List.mem_map.mpr ⟨(f, fqdn), this, rfl⟩

theorem findByFQDN_lookup {m : List (String × String)} {fqdn f : String}
    (hnd : (keysOf m).Nodup) (h : findByFQDN m fqdn = some f) :
    lookupA m f = some fqdn := by
  induction m with
  | nil => simp [findByFQDN] at h
  | cons p rest ih =>
    obtain ⟨k1, v1⟩ := p
    rw [keysOf_cons, List.nodup_cons] at hnd
    by_cases hv : v1 = fqdn
    · subst hv
      simp [findByFQDN] at h
      subst h
      simp [lookupA]
    · rw [findByFQDN, if_neg hv] at h
      have hf : f ∈ keysOf rest := findByFQDN_mem_keys h
      have hk : k1 ≠ f := fun e => hnd.1 (e ▸ hf)
      simp [lookupA, hk, ih hnd.2 h]

theorem findByFQDN_eq_none {m : List (String × String)} {fqdn : String} :
    findByFQDN m fqdn = none ↔ ∀ p ∈ m, p.2 ≠ fqdn := by
  induction m with
  | nil => simp [findByFQDN]
  | cons p rest ih =>
    obtain ⟨k1, v1⟩ := p
    by_cases hv : v1 = fqdn <;> simp [findByFQDN, hv, ih]

/-! ## Path-split lemma -/

theorem splitN2core_eq :
    ∀ (cs a b : List Char), splitN2core cs = (a, some b) →
      cs = a ++ '/' :: b ∧ '/' ∉ a := by
  intro cs
  induction cs with
  | nil => intro a b h; simp [splitN2core] at h
  | cons c rest ih =>
    intro a b h
    by_cases hc : c = '/'
    · subst hc
      rw [splitN2core, if_pos rfl] at h
      injection h with h1 h2
      injection h2 with h2
      subst h1
      subst h2
      simp
    · rw [splitN2core, if_neg hc] at h
      injection h with h1 h2
      have hsp : splitN2core rest = ((splitN2core rest).1, some b) := by
        rw [← h2]
      obtain ⟨hcs, hna⟩ := ih (splitN2core rest).1 b hsp
      subst h1
      refine ⟨by rw [List.cons_append, ← hcs], ?_⟩
      intro hx
      rcases List.mem_cons.mp hx with h | h
      · exact hc h.symm
      · exact hna h

/-! ## Filesystem lemma -/

theorem lookupFS_insertFS (fs : FS) (p : List String) (d : List Nat) :
    lookupFS (insertFS fs p d) p = some d := by
  induction fs with
  | nil => simp [insertFS, lookupFS]
  | cons q rest ih =>
    obtain ⟨q1, d1⟩ := q
    by_cases h : q1 = p <;> simp [insertFS, lookupFS, h, ih]

/-! ## Claim C3: store/get round trip -/

/-- C3: storing bytes `data` under any domain and category and reading the
returned generated filename back yields exactly `data`, for every base
state, content type, extension and generated identifier. -/
theorem c3_store_get_round_trip (st : Storage) (domainFolder category : String)
    (data : List Nat) (contentType ext id : String)
    (mimeF : String → String) (sniff : List Nat → String) :
    (GetFile (StoreFile st domainFolder category data contentType ext id).2.2 mimeF sniff
      domainFolder category
      (StoreFile st domainFolder category data contentType ext id).1).map Prod.fst =
      some data := by
  simp [StoreFile, GetFile, lookupFS_insertFS]

/-! ## Claim C4: duplicate AddDomain fails and leaves the state unchanged -/

/-- C4: when the normalized folder name is already registered, `AddDomain`
returns the already-exists error and the post-call registry state equals the
pre-call state. -/
theorem c4_addDomain_already_exists (cm : ConfigManager)
    (folderName displayName domainFQDN : String)
    (h : DomainExists cm (normalizeFolderName folderName) = true) :
    AddDomain cm folderName displayName domainFQDN =
      Except.error (RegError.alreadyExists (normalizeFolderName folderName)) ∧
    applyOp cm (RegOp.addDom folderName displayName domainFQDN) = cm := by
  obtain ⟨v, hv⟩ := Option.isSome_iff_exists.mp h
  exact ⟨by simp [AddDomain, hv], by simp [applyOp, AddDomain, hv]⟩

/-- A registry with the domain `main` registered. -/
def cmC4 : ConfigManager := runOps [RegOp.addDom "main" "Main" "cdn.example.com"]

/-- Witness for C4 at a concrete registry. -/
theorem c4_addDomain_already_exists_witness :
    AddDomain cmC4 "main" "X" "example.org" =
      Except.error (RegError.alreadyExists (normalizeFolderName "main")) ∧
    applyOp cmC4 (RegOp.addDom "main" "X" "example.org") = cmC4 :=
  c4_addDomain_already_exists cmC4 "main" "X" "example.org" (by decide)

/-! ## Claim C10: the five maps stay key-consistent -/

/-- C10: after any operation sequence the three domain maps share one key
set, the two category maps share one key set, and a display name and FQDN
entry exist for a folder name exactly when `DomainExists` holds. -/
theorem c10_registry_key_consistency (ops : List RegOp) (k : String) :
    ((lookupA (runOps ops).domains k).isSome ↔
      (lookupA (runOps ops).domainDisplayNames k).isSome) ∧
    ((lookupA (runOps ops).domains k).isSome ↔
      (lookupA (runOps ops).domainFQDNs k).isSome) ∧
    ((lookupA (runOps ops).categories k).isSome ↔
      (lookupA (runOps ops).categoryDisplayNames k).isSome) ∧
    (DomainExists (runOps ops) k = true ↔
      ((lookupA (runOps ops).domainDisplayNames k).isSome ∧
        (lookupA (runOps ops).domainFQDNs k).isSome)) := by
  obtain ⟨h1, h2, h3, _, _, _, _⟩ := regInv_runOps ops
  refine ⟨?_, ?_, ?_, ?_⟩
  · rw [lookupA_isSome_iff, lookupA_isSome_iff, h1]
  · rw [lookupA_isSome_iff, lookupA_isSome_iff, h2]
  · rw [lookupA_isSome_iff, lookupA_isSome_iff, h3]
  · rw [DomainExists, lookupA_isSome_iff, lookupA_isSome_iff, lookupA_isSome_iff,
      ← h1, ← h2]
    exact ⟨fun h => ⟨h, h⟩, And.left⟩

/-! ## Claim C1: publicHost uniqueness is not enforced -/

/-- The registry after two successful `AddDomain` calls with distinct folder
names and the same FQDN. -/
def cmC1 : ConfigManager :=
  runOps [RegOp.addDom "a" "A" "cdn.example.com", RegOp.addDom "b" "B" "cdn.example.com"]

/-- C1 is false as stated: the second `AddDomain` with an already-stored
FQDN succeeds, so two distinct folder names carry the same `publicHost` and
`GetDomainByFQDN` has two matches. -/
theorem c1_counterexample :
    AddDomain (runOps [RegOp.addDom "a" "A" "cdn.example.com"]) "b" "B" "cdn.example.com" =
      Except.ok cmC1 ∧
    lookupA cmC1.domainFQDNs "a" = some "cdn.example.com" ∧
    lookupA cmC1.domainFQDNs "b" = some "cdn.example.com" ∧
    ("a" : String) ≠ "b" := by
  refine ⟨by decide, by decide, by decide, by decide⟩

/-- C1 (amended): `AddDomain` enforces uniqueness of the folder name only,
so after any operation sequence the folder names of the FQDN map are
pairwise distinct; stored FQDN values may repeat, and `GetDomainByFQDN`
returns the first match of its scan. -/
theorem c1_folder_names_nodup (ops : List RegOp) :
    (keysOf (runOps ops).domainFQDNs).Nodup ∧
    (keysOf (runOps ops).domains).Nodup := by
  obtain ⟨_, h2, _, h4, _, _, _⟩ := regInv_runOps ops
  exact ⟨h2 ▸ h4, h4⟩

/-! ## Claim C7: whitespace in folder names -/

/-- The registry after `AddDomain` with a tab character in the folder name. -/
def cmC7 : ConfigManager := runOps [RegOp.addDom "a\tb" "D" "h.example.com"]

/-- C7 is false as stated: normalization replaces only the space character,
so a folder name containing a tab — a whitespace character — is registered
verbatim. -/
theorem c7_counterexample :
    (lookupA cmC7.domains "a\tb").isSome = true ∧
    "a\tb".data.any (fun c => c.isWhitespace) = true := by
  refine ⟨by decide, by decide⟩

/-- C7 (amended): `AddDomain` and `AddCategory` replace space characters
(U+0020) with dashes before registering, so no folder name ever present in
the registry contains a space character; other whitespace characters are
not normalized away. -/
theorem c7_no_space_in_folder_names (ops : List RegOp) (k : String)
    (h : (lookupA (runOps ops).domains k).isSome = true ∨
         (lookupA (runOps ops).categories k).isSome = true) :
    ' ' ∉ k.data := by
  obtain ⟨_, _, _, _, _, h6, h7⟩ := regInv_runOps ops
  rcases h with h | h
  · exact h6 k ((lookupA_isSome_iff _ _).mp h)
  · exact h7 k ((lookupA_isSome_iff _ _).mp h)

/-- Witness for the amended C7: the registered form of `my domain` has no
space. -/
theorem c7_no_space_in_folder_names_witness : ' ' ∉ ("my-domain" : String).data :=
  c7_no_space_in_folder_names [RegOp.addDom "my domain" "D" "h.example.com"]
    "my-domain" (Or.inl (by decide))

/-! ## Claim C6: host resolution -/

/-- A registry with one domain, `main` at host `cdn.example.com`. -/
def cmC6 : ConfigManager := runOps [RegOp.addDom "main" "Main CDN" "cdn.example.com"]

/-- C6: `GetDomainByFQDN` matches by exact, case-sensitive string equality:
any hit is a folder whose stored FQDN is exactly the queried host (with its
stored display name), a host stored for no domain yields a miss, and on the
concrete registry `cdn.example.com` resolves to `main` while
`CDN.example.com` and `other.com` do not resolve. -/
theorem c6_host_resolution (ops : List RegOp) (host folder disp : String) :
    (GetDomainByFQDN (runOps ops) host = some (folder, disp) →
      lookupA (runOps ops).domainFQDNs folder = some host ∧
      lookupA (runOps ops).domainDisplayNames folder = some disp) ∧
    ((∀ p ∈ (runOps ops).domainFQDNs, p.2 ≠ host) →
      GetDomainByFQDN (runOps ops) host = none) ∧
    GetDomainByFQDN cmC6 "cdn.example.com" = some ("main", "Main CDN") ∧
    GetDomainByFQDN cmC6 "CDN.example.com" = none ∧
    GetDomainByFQDN cmC6 "other.com" = none := by
  obtain ⟨h1, h2, _, h4, _, _, _⟩ := regInv_runOps ops
  refine ⟨?_, ?_, by decide, by decide, by decide⟩
  · intro hg
    rw [GetDomainByFQDN] at hg
    cases hf : findByFQDN (runOps ops).domainFQDNs host with
    | none => rw [hf] at hg; cases hg
    | some f =>
      rw [hf] at hg
      injection hg with hg
      rw [Prod.mk.injEq] at hg
      obtain ⟨rfl, hd⟩ := hg
      have hnd : (keysOf (runOps ops).domainFQDNs).Nodup := h2 ▸ h4
      refine ⟨findByFQDN_lookup hnd hf, ?_⟩
      have hmem : f ∈ keysOf (runOps ops).domainFQDNs := findByFQDN_mem_keys hf
      have hmem2 : f ∈ keysOf (runOps ops).domainDisplayNames := by
        rw [← h1, h2]; exact hmem
      obtain ⟨x, hx⟩ := Option.isSome_iff_exists.mp ((lookupA_isSome_iff _ _).mpr hmem2)
      rw [hx] at hd
      simp only [Option.getD_some] at hd
      rw [hx, hd]
  · intro hnone
    simp [GetDomainByFQDN, findByFQDN_eq_none.mpr hnone]

/-- Witness for C6: the general conjuncts applied to the concrete registry
and hosts. -/
theorem c6_host_resolution_witness :
    (lookupA cmC6.domainFQDNs "main" = some "cdn.example.com" ∧
      lookupA cmC6.domainDisplayNames "main" = some "Main CDN") ∧
    GetDomainByFQDN cmC6 "nowhere.example" = none :=
  ⟨(c6_host_resolution [RegOp.addDom "main" "Main CDN" "cdn.example.com"]
      "cdn.example.com" "main" "Main CDN").1 (by decide),
    (c6_host_resolution [RegOp.addDom "main" "Main CDN" "cdn.example.com"]
      "nowhere.example" "" "").2.1 (by decide)⟩

/-! ## Claim C2: the read path does not validate filenames -/

/-- A registry with the domain `main` at `cdn.example.com`, for the read
path counterexample. -/
def cmC2 : ConfigManager := runOps [RegOp.addDom "main" "Main" "cdn.example.com"]

/-- A traversal request: the path after the category segment contains
separators and parent-directory segments. -/
def reqC2 : HttpRequest :=
  { method := "GET", host := "cdn.example.com", urlPath := "/img/../../etc/passwd",
    ifNoneMatch := "", origin := "" }

/-- The segments of a filename around `/`, for stating the
parent-directory test. -/
def segmentsOf : List Char → List (List Char)
  | [] => [[]]
  | c :: rest =>
    let r := segmentsOf rest
    if c = '/' then [] :: r
    else
      match r with
      | [] => [[c]]
      | s :: ss => (c :: s) :: ss

/-- C2 is false as stated: the handler passes the whole path remainder to
`GetFile` as the filename, so a request for `/img/../../etc/passwd` on a
registered host reaches the blob store with a filename that contains `/`
and `..` segments. -/
theorem c2_counterexample :
    handlerParse cmC2 reqC2 = some ("main", "img", "../../etc/passwd") ∧
    '/' ∈ ("../../etc/passwd" : String).data ∧
    ['.', '.'] ∈ segmentsOf ("../../etc/passwd" : String).data := by
  refine ⟨by decide, by decide, by decide⟩

/-- C2 (amended): the Request Handler performs no validation of the
filename: whenever its parse succeeds, the category is the first path
segment (slash-free) and the filename passed to `BlobStore.Get` is the
verbatim remainder of the path after that first slash, so it may contain
separators and parent-directory segments. -/
theorem c2_filename_passed_verbatim (cm : ConfigManager) (req : HttpRequest)
    (dom cat fn : String)
    (h : handlerParse cm req = some (dom, cat, fn)) :
    (trimPreS "/" req.urlPath).data = cat.data ++ '/' :: fn.data ∧
    '/' ∉ cat.data := by
  rw [handlerParse] at h
  cases hg : GetDomainByFQDN cm (hostTrim req.host) with
  | none => rw [hg] at h; cases h
  | some p =>
    obtain ⟨d0, disp0⟩ := p
    rw [hg] at h
    simp only at h
    cases hs : splitN2core (trimPreS "/" req.urlPath).data with
    | mk a b =>
      cases b with
      | none => rw [hs] at h; simp at h
      | some rest =>
        rw [hs] at h
        simp only [Option.some.injEq, Prod.mk.injEq] at h
        obtain ⟨-, hcat, hfn⟩ := h
        have := splitN2core_eq (trimPreS "/" req.urlPath).data a rest hs
        subst hcat
        subst hfn
        exact this

/-- Witness for the amended C2 at the traversal request. -/
theorem c2_filename_passed_verbatim_witness :
    (trimPreS "/" reqC2.urlPath).data =
      ("img" : String).data ++ '/' :: ("../../etc/passwd" : String).data ∧
    '/' ∉ ("img" : String).data :=
  c2_filename_passed_verbatim cmC2 reqC2 "main" "img" "../../etc/passwd" (by decide)

/-! ## Claim C8: every failure of the read path is the uniform 404 -/

/-- C8: a request whose method is outside GET/HEAD/OPTIONS, whose trimmed
host resolves to no domain, or whose path has fewer than two segments,
terminates in the `serveNotFound` response: status 404 (never 405 or a
server error) with the short 60-second cache-control header, which differs
from the one-year header of served responses. -/
theorem c8_uniform_not_found (cm : ConfigManager) (st : Storage)
    (mimeF : String → String) (sniff : List Nat → String) (req : HttpRequest)
    (h : (req.method ≠ "GET" ∧ req.method ≠ "HEAD" ∧ req.method ≠ "OPTIONS") ∨
         GetDomainByFQDN cm (hostTrim req.host) = none ∨
         (splitN2core (trimPreS "/" req.urlPath).data).2 = none) :
    handler cm st mimeF sniff req = notFoundResponse ∧
    notFoundResponse.status = 404 ∧
    notFoundResponse.cacheControl = some "public, max-age=60" ∧
    notFoundResponse.cacheControl ≠ some servedCacheControl := by
  refine ⟨?_, rfl, rfl, by decide⟩
  rcases h with ⟨hg1, hh1, ho1⟩ | h | h
  · cases hp : handlerParse cm req with
    | none => simp [handler, hp]
    | some t =>
      obtain ⟨d, c, f⟩ := t
      simp only [handler, hp]
      rw [if_neg ho1, if_pos ⟨hg1, hh1⟩]
  · have hp : handlerParse cm req = none := by simp [handlerParse, h]
    simp [handler, hp]
  · have hp : handlerParse cm req = none := by
      rw [handlerParse]
      cases hg : GetDomainByFQDN cm (hostTrim req.host) with
      | none => rfl
      | some p =>
        obtain ⟨d0, disp0⟩ := p
        simp only
        have hsp : splitN2core (trimPreS "/" req.urlPath).data =
            ((splitN2core (trimPreS "/" req.urlPath).data).1, none) := by
          rw [← h]
        rw [hsp]
    simp [handler, hp]

/-- Witness inputs shared by the handler claims: one registered domain and
one stored file. -/
def cmC5 : ConfigManager := runOps [RegOp.addDom "main" "Main" "cdn.example.com"]

/-- One stored file `id1.txt` with bytes `hi` under `main/img`. -/
def stC5 : Storage :=
  (StoreFile ⟨"storage", []⟩ "main" "img" [104, 105] "text/plain" ".txt" "id1").2.2

/-- A concrete extension-based MIME table. -/
def mimeC5 : String → String := fun e => if e = ".txt" then "text/plain" else ""

/-- A concrete content sniffer. -/
def sniffC5 : List Nat → String := fun _ => "application/octet-stream"

/-- A POST request for a stored file on a registered host. -/
def reqC8 : HttpRequest :=
  { method := "POST", host := "cdn.example.com", urlPath := "/img/id1.txt",
    ifNoneMatch := "", origin := "" }

/-- Witness for C8: a POST for an existing file yields the 404 response. -/
theorem c8_uniform_not_found_witness :
    handler cmC5 stC5 mimeC5 sniffC5 reqC8 = notFoundResponse ∧
    notFoundResponse.status = 404 ∧
    notFoundResponse.cacheControl = some "public, max-age=60" ∧
    notFoundResponse.cacheControl ≠ some servedCacheControl :=
  c8_uniform_not_found cmC5 stC5 mimeC5 sniffC5 reqC8 (Or.inl (by decide))

/-! ## Claim C9: listing is sorted and total -/

/-- C9: `ListFiles` output is sorted ascending; it is a permutation of the
file-entry names of the directory; a directory no stored path lies under
yields the empty list rather than an error; and two states whose
file-entry names agree up to order list identically, so the result is
independent of insertion order. -/
theorem c9_listFiles_sorted (st : Storage) (domainFolder category : String) :
    (ListFiles st domainFolder category).Sorted (fun a b => a ≤ b) ∧
    (ListFiles st domainFolder category).Perm
      (fileNamesIn st.fs [st.basePath, domainFolder, category]) ∧
    ((∀ p ∈ st.fs, ¬ ([st.basePath, domainFolder, category].isPrefixOf p.1 = true)) →
      ListFiles st domainFolder category = []) ∧
    (∀ st2 : Storage,
      (fileNamesIn st.fs [st.basePath, domainFolder, category]).Perm
        (fileNamesIn st2.fs [st2.basePath, domainFolder, category]) →
      ListFiles st domainFolder category = ListFiles st2 domainFolder category) := by
  have hsorted : ∀ l : List String,
      (List.insertionSort (fun a b => a ≤ b) l).Sorted (fun a b => a ≤ b) :=
    fun l => List.sorted_insertionSort _ l
  refine ⟨hsorted _, List.perm_insertionSort _ _, ?_, ?_⟩
  · intro hnone
    have hempty : fileNamesIn st.fs [st.basePath, domainFolder, category] = [] := by
      rw [fileNamesIn, List.filter_eq_nil_iff.mpr, List.map_nil]
      intro p hp
      simp only [Bool.and_eq_true, not_and]
      intro _
      exact hnone p hp
    rw [ListFiles, hempty]
    rfl
  · intro st2 hperm
    refine List.eq_of_perm_of_sorted ?_ (hsorted _) (hsorted _)
    exact ((List.perm_insertionSort _ _).trans hperm).trans
      (List.perm_insertionSort _ _).symm

/-- Two files stored in one order. -/
def stC9a : Storage :=
  (StoreFile ((StoreFile ⟨"storage", []⟩ "d" "c" [1] "" ".png" "bb").2.2)
    "d" "c" [2] "" ".png" "aa").2.2

/-- The same two files stored in the other order. -/
def stC9b : Storage :=
  (StoreFile ((StoreFile ⟨"storage", []⟩ "d" "c" [2] "" ".png" "aa").2.2)
    "d" "c" [1] "" ".png" "bb").2.2

/-- Witness for C9: both insertion orders list identically. -/
theorem c9_listFiles_sorted_witness :
    ListFiles stC9a "d" "c" = ListFiles stC9b "d" "c" :=
  (c9_listFiles_sorted stC9a "d" "c").2.2.2 stC9b (by decide)

/-! ## Claim C5: ETag shape and the conditional-GET branch -/

/-- C5: on the served path the ETag is the quoted hex of the first eight
SHA-256 digest bytes of the content (hence a function of the bytes alone);
a GET/HEAD request whose `If-None-Match` equals it exactly receives the
bare 304 with no body, and any other `If-None-Match` value receives the
full 200 with the ETag header and the body for GET. -/
theorem c5_etag_conditional (cm : ConfigManager) (st : Storage)
    (mimeF : String → String) (sniff : List Nat → String) (req : HttpRequest)
    (dom cat fn : String) (data : List Nat) (ct : String)
    (hm : req.method = "GET" ∨ req.method = "HEAD")
    (hp : handlerParse cm req = some (dom, cat, fn))
    (hg : GetFile st mimeF sniff dom cat fn = some (data, ct)) :
    (GenerateETag data).data =
      Char.ofNat 34 :: (hexEncode ((sha256 data).take 8)).data ++ [Char.ofNat 34] ∧
    (req.ifNoneMatch = GenerateETag data →
      handler cm st mimeF sniff req = notModifiedResponse ∧
      notModifiedResponse.status = 304 ∧ notModifiedResponse.body = []) ∧
    (req.ifNoneMatch ≠ GenerateETag data →
      handler cm st mimeF sniff req = servedResponse req data ct (GenerateETag data) ∧
      (servedResponse req data ct (GenerateETag data)).status = 200 ∧
      (servedResponse req data ct (GenerateETag data)).etag = some (GenerateETag data) ∧
      (servedResponse req data ct (GenerateETag data)).body =
        (if req.method ≠ "HEAD" then data else [])) := by
  have hopt : ¬ req.method = "OPTIONS" := by
    rcases hm with h | h <;> rw [h] <;> decide
  have hgethead : ¬ (req.method ≠ "GET" ∧ req.method ≠ "HEAD") := by
    rcases hm with h | h <;> rw [h] <;> decide
  refine ⟨rfl, ?_, ?_⟩ <;> intro hin
  · refine ⟨?_, rfl, rfl⟩
    simp only [handler, hp]
    rw [if_neg hopt, if_neg hgethead, hg]
    simp only
    rw [if_pos hin]
  · refine ⟨?_, rfl, rfl, rfl⟩
    simp only [handler, hp]
    rw [if_neg hopt, if_neg hgethead, hg]
    simp only
    rw [if_neg hin]

/-- The conditional request carrying exactly the stored file's ETag. -/
def reqC5 : HttpRequest :=
  { method := "GET", host := "cdn.example.com", urlPath := "/img/id1.txt",
    ifNoneMatch := GenerateETag [104, 105], origin := "" }

/-- Witness for C5: the conditional GET receives the bare 304. -/
theorem c5_etag_conditional_witness :
    handler cmC5 stC5 mimeC5 sniffC5 reqC5 = notModifiedResponse :=
  ((c5_etag_conditional cmC5 stC5 mimeC5 sniffC5 reqC5 "main" "img" "id1.txt"
      [104, 105] "text/plain" (Or.inl rfl) (by decide) (by decide)).2.1 rfl).1

end Vixa
